import Mathlib

/-!
Shallow embedding of the openclaw-old arbitrage-engine core, translated from
the code snippets in the repository's planning documents (the `poly-kalshi-arb`
analysis document and the strategy research notes), together with theorems
settling the specification claims about it.

Conventions: Python arbitrary-precision integers become `Nat`/`Int`; Python
lists become `List`; fallible operations (Python `IndexError` on list access)
return `Option`; mutation becomes explicit state passing.
-/

namespace OpenClaw

/-! ## Fee model

From the analysis document, "Key Code We Should Port / 2. Fee Calculation":

    def kalshi_fee_cents(price_cents: int) -> int:
        if price_cents > 100 or price_cents == 0:
            return 0
        numerator = 7 * price_cents * (100 - price_cents) + 9999
        return numerator // 10000

    KALSHI_FEE_TABLE = [0] * 101
    for p in range(1, 100):
        numerator = 7 * p * (100 - p) + 9999
        KALSHI_FEE_TABLE[p] = numerator // 10000
-/

/-- `kalshi_fee_cents` from the source: the Kalshi per-contract fee in cents
at an integer price in cents. -/
def kalshi_fee_cents (price_cents : Nat) : Nat :=
  if price_cents > 100 ∨ price_cents = 0 then 0
  else (7 * price_cents * (100 - price_cents) + 9999) / 10000

/-- `KALSHI_FEE_TABLE` from the source: a 101-entry table initialised to zeros
and filled for `p` in `range(1, 100)` (that is, 1..99), exactly as the Python
loop does. -/
def KALSHI_FEE_TABLE : List Nat :=
  (List.range' 1 99).foldl
    (fun t p => t.set p ((7 * p * (100 - p) + 9999) / 10000))
    (List.replicate 101 0)

/-- Ceiling of a natural number divided by 10000, expressed with natural
division: the bridge between the spec's closed-form `ceil` and the code's
`(a + 9999) // 10000` idiom. -/
lemma ceil_div_ten_thousand (a : ℕ) :
    ⌈(a : ℚ) / 10000⌉ = (((a + 9999) / 10000 : ℕ) : ℤ) := by
  have hq : (0 : ℚ) < 10000 := by norm_num
  rw [Int.ceil_eq_iff]
  constructor
  · have h2 : ((((a + 9999) / 10000 : ℕ) : ℤ) - 1) * 10000 < (a : ℤ) := by omega
    rw [lt_div_iff₀ hq]
    exact_mod_cast h2
  · have h1 : (a : ℤ) ≤ (((a + 9999) / 10000 : ℕ) : ℤ) * 10000 := by omega
    rw [div_le_iff₀ hq]
    exact_mod_cast h1

set_option maxRecDepth 4000 in
/-- The fee table computed by the source's fill loop, as a Nat-only fact
checkable by evaluation. -/
lemma fee_table_nat_closed_form :
    ∀ p : ℕ, p ≤ 100 →
      KALSHI_FEE_TABLE.get? p = some ((7 * p * (100 - p) + 9999) / 10000) ∧
      KALSHI_FEE_TABLE.get? p = some (kalshi_fee_cents p) := by decide

/-- C3: for every integer price p in 0..100, the precomputed fee table entry
equals the closed-form convex fee formula with constant k = 7,
`KALSHI_FEE_TABLE[p] = ceil(7 * p * (100 - p) / 10000)`, and the table lookup
agrees with the closed-form function `kalshi_fee_cents` at all 101 integer
price points. -/
theorem fee_table_matches_closed_form (p : ℕ) (hp : p ≤ 100) :
    KALSHI_FEE_TABLE.get? p = some (⌈(7 * (p : ℚ) * (100 - (p : ℚ))) / 10000⌉.toNat) ∧
    KALSHI_FEE_TABLE.get? p = some (kalshi_fee_cents p) := by
  obtain ⟨h1, h2⟩ := fee_table_nat_closed_form p hp
  refine ⟨?_, h2⟩
  rw [h1]
  have hcast : 7 * (p : ℚ) * (100 - (p : ℚ)) = ((7 * p * (100 - p) : ℕ) : ℚ) := by
    push_cast [Nat.cast_sub hp]
    ring
  rw [hcast, ceil_div_ten_thousand, Int.toNat_natCast]

/-- Witness for C3 at the concrete price point p = 47. -/
theorem fee_table_matches_closed_form_witness :
    47 ≤ 100 ∧
    (KALSHI_FEE_TABLE.get? 47 = some (⌈(7 * (47 : ℚ) * (100 - (47 : ℚ))) / 10000⌉.toNat) ∧
     KALSHI_FEE_TABLE.get? 47 = some (kalshi_fee_cents 47)) :=
  ⟨by norm_num, fee_table_matches_closed_form 47 (by norm_num)⟩

/-- C10: `kalshi_fee_cents` is a total function on all non-negative integer
prices (its Lean type is `Nat → Nat`), and it returns 0 both at
`price_cents = 0` and at every `price_cents > 100`: out-of-range prices
silently yield a zero fee rather than an error. -/
theorem fee_zero_outside_range :
    kalshi_fee_cents 0 = 0 ∧ ∀ p : ℕ, 100 < p → kalshi_fee_cents p = 0 := by
  refine ⟨by decide, ?_⟩
  intro p hp
  unfold kalshi_fee_cents
  rw [if_pos (Or.inl hp)]

/-- Witness for C10 at the concrete out-of-range price p = 101. -/
theorem fee_zero_outside_range_witness :
    kalshi_fee_cents 0 = 0 ∧ (100 < 101 ∧ kalshi_fee_cents 101 = 0) :=
  ⟨fee_zero_outside_range.1, by decide, fee_zero_outside_range.2 101 (by decide)⟩

/-! ## In-flight deduplication

From the analysis document, "Key Code We Should Port / 3. In-Flight
Deduplication":

    class InFlightDedupe:
        def __init__(self, num_markets=512):
            self.num_slots = num_markets // 64
            self.bitmask = [0] * self.num_slots
            self.lock = threading.Lock()

        def try_claim(self, market_id: int) -> bool:
            slot = market_id // 64
            bit = market_id % 64
            mask = 1 << bit
            with self.lock:
                if self.bitmask[slot] & mask:
                    return False  # Already in-flight
                self.bitmask[slot] |= mask
                return True

        def release(self, market_id: int):
            slot = market_id // 64
            bit = market_id % 64
            mask = 1 << bit
            with self.lock:
                self.bitmask[slot] &= ~mask

Every operation runs under the lock, so the concurrent object is linearisable
and its behaviour is exactly that of the sequential state machine below.
Python's arbitrary-precision non-negative slot values become `Nat`; indexing a
list out of range raises `IndexError`, modelled by `Option`; since slot values
are always non-negative, Python's `b & ~mask` equals `Nat.ldiff b mask`. The
`let` bindings `slot`, `bit`, `mask` of the source are inlined. -/

structure InFlightDedupe where
  num_slots : ℕ
  bitmask : List ℕ
  deriving Repr, DecidableEq

namespace InFlightDedupe

/-- `InFlightDedupe.__init__` with its default `num_markets=512`. -/
def init (num_markets : ℕ := 512) : InFlightDedupe :=
  { num_slots := num_markets / 64
    bitmask := List.replicate (num_markets / 64) 0 }

/-- `InFlightDedupe.try_claim` from the source. -/
def try_claim (s : InFlightDedupe) (market_id : ℕ) : Option (Bool × InFlightDedupe) :=
  match s.bitmask.get? (market_id / 64) with
  | none => none
  | some b =>
      if b &&& (1 <<< (market_id % 64)) ≠ 0 then some (false, s)
      else
        some (true,
          { s with bitmask := s.bitmask.set (market_id / 64) (b ||| (1 <<< (market_id % 64))) })

/-- `InFlightDedupe.release` from the source. -/
def release (s : InFlightDedupe) (market_id : ℕ) : Option InFlightDedupe :=
  match s.bitmask.get? (market_id / 64) with
  | none => none
  | some b =>
      some { s with bitmask := s.bitmask.set (market_id / 64) (Nat.ldiff b (1 <<< (market_id % 64))) }

/-- Observer: is `market_id`'s bit currently set (the market is in flight)? -/
def inFlight (s : InFlightDedupe) (market_id : ℕ) : Bool :=
  match s.bitmask.get? (market_id / 64) with
  | none => false
  | some b => decide (b &&& (1 <<< (market_id % 64)) ≠ 0)

/-- `n` successive `try_claim` calls on the same market id, collecting the
returned booleans. -/
def tryClaimN (market_id : ℕ) : ℕ → InFlightDedupe → Option (List Bool × InFlightDedupe)
  | 0, s => some ([], s)
  | n + 1, s =>
      match s.try_claim market_id with
      | none => none
      | some (r, s') =>
          match tryClaimN market_id n s' with
          | none => none
          | some (rs, s'') => some (r :: rs, s'')

end InFlightDedupe

lemma one_shiftLeft_eq_two_pow (k : ℕ) : 1 <<< k = 2 ^ k := by
  simp [Nat.shiftLeft_eq]

lemma and_two_pow_ne_zero_iff (b k : ℕ) : b &&& 2 ^ k ≠ 0 ↔ b.testBit k = true := by
  rw [Nat.and_two_pow]
  cases h : b.testBit k <;> simp [h, Nat.pos_iff_ne_zero]

lemma testBit_or_two_pow_self (b k : ℕ) : (b ||| 2 ^ k).testBit k = true := by
  simp [Nat.testBit_lor, Nat.testBit_two_pow_self]

lemma testBit_ldiff_two_pow_self (b k : ℕ) : (Nat.ldiff b (2 ^ k)).testBit k = false := by
  simp [Nat.testBit_ldiff, Nat.testBit_two_pow_self]

lemma ldiff_and_two_pow (b k : ℕ) : Nat.ldiff b (2 ^ k) &&& 2 ^ k = 0 := by
  rw [Nat.and_two_pow, testBit_ldiff_two_pow_self]
  simp

/-- A `try_claim` on a market already in flight returns `false` and leaves the
state untouched. -/
lemma try_claim_of_inFlight (s : InFlightDedupe) (m : ℕ) (h : s.inFlight m = true) :
    s.try_claim m = some (false, s) := by
  unfold InFlightDedupe.inFlight at h
  unfold InFlightDedupe.try_claim
  cases hg : s.bitmask.get? (m / 64) with
  | none => rw [hg] at h; exact absurd h (by simp)
  | some b =>
      rw [hg] at h
      simp only [decide_eq_true_eq] at h
      simp only [hg]
      rw [if_pos h]

/-- A `try_claim` on a free market with an in-range slot claims it: it returns
`true` and the market is in flight afterwards, with slot-list length
preserved. -/
lemma try_claim_of_not_inFlight (s : InFlightDedupe) (m : ℕ)
    (hfree : s.inFlight m = false) (hslot : m / 64 < s.bitmask.length) :
    ∃ s', s.try_claim m = some (true, s') ∧ s'.inFlight m = true ∧
      s'.bitmask.length = s.bitmask.length := by
  unfold InFlightDedupe.inFlight at hfree
  unfold InFlightDedupe.try_claim
  cases hg : s.bitmask.get? (m / 64) with
  | none =>
      rw [List.get?_eq_none] at hg
      omega
  | some b =>
      rw [hg] at hfree
      have h0 : b &&& 1 <<< (m % 64) = 0 := by simpa using hfree
      simp only [hg]
      rw [if_neg (by simp [h0])]
      refine ⟨_, rfl, ?_, by simp⟩
      unfold InFlightDedupe.inFlight
      rw [List.get?_set_eq_of_lt _ hslot]
      simp only [decide_eq_true_eq]
      rw [one_shiftLeft_eq_two_pow, and_two_pow_ne_zero_iff]
      exact testBit_or_two_pow_self b (m % 64)

/-- A `release` on an in-range slot succeeds and leaves the market free, with
slot-list length preserved. -/
lemma release_clears (s : InFlightDedupe) (m : ℕ) (hslot : m / 64 < s.bitmask.length) :
    ∃ s', s.release m = some s' ∧ s'.inFlight m = false ∧
      s'.bitmask.length = s.bitmask.length := by
  unfold InFlightDedupe.release
  cases hg : s.bitmask.get? (m / 64) with
  | none =>
      rw [List.get?_eq_none] at hg
      omega
  | some b =>
      simp only [hg]
      refine ⟨_, rfl, ?_, by simp⟩
      unfold InFlightDedupe.inFlight
      rw [List.get?_set_eq_of_lt _ hslot]
      simp only [ne_eq, decide_eq_false_iff_not, Decidable.not_not]
      rw [one_shiftLeft_eq_two_pow]
      exact ldiff_and_two_pow b (m % 64)

/-- Once a market is in flight, any run of further `try_claim` calls returns
all-`false` and leaves the state unchanged. -/
lemma tryClaimN_of_inFlight (m n : ℕ) (s : InFlightDedupe) (h : s.inFlight m = true) :
    InFlightDedupe.tryClaimN m n s = some (List.replicate n false, s) := by
  induction n with
  | zero => rfl
  | succ k ih =>
      unfold InFlightDedupe.tryClaimN
      simp only [try_claim_of_inFlight s m h, ih, List.replicate_succ]

/-- C1: at most one Execution Engine invocation is in flight per market: from
any state in which market `m < 512` is unclaimed, a run of `n + 1` successive
`try_claim` calls on `m` (no intervening `release`) returns `true` exactly on
the first call and `false` on every later call, and a subsequent `release`
makes the market claimable again (`try_claim` returns `true` once more). -/
theorem in_flight_exactly_first_claim_wins (s : InFlightDedupe) (m n : ℕ)
    (hlen : s.bitmask.length = 8) (hm : m < 512) (hfree : s.inFlight m = false) :
    ∃ s₁, InFlightDedupe.tryClaimN m (n + 1) s = some (true :: List.replicate n false, s₁) ∧
      ∃ s₂, s₁.release m = some s₂ ∧ ∃ s₃, s₂.try_claim m = some (true, s₃) := by
  have hslot : m / 64 < s.bitmask.length := by rw [hlen]; omega
  obtain ⟨s₁, hc, hin, hlen₁⟩ := try_claim_of_not_inFlight s m hfree hslot
  refine ⟨s₁, ?_, ?_⟩
  · unfold InFlightDedupe.tryClaimN
    simp only [hc, tryClaimN_of_inFlight m n s₁ hin]
  · obtain ⟨s₂, hr, hfree₂, hlen₂⟩ := release_clears s₁ m (by omega)
    obtain ⟨s₃, hc₃, _, _⟩ := try_claim_of_not_inFlight s₂ m hfree₂ (by omega)
    exact ⟨s₂, hr, s₃, hc₃⟩

/-- Witness for C1: three claims then a release on market 5 of a fresh 512-slot
deduper. -/
theorem in_flight_exactly_first_claim_wins_witness :
    (InFlightDedupe.init 512).bitmask.length = 8 ∧ 5 < 512 ∧
      (InFlightDedupe.init 512).inFlight 5 = false ∧
      (∃ s₁, InFlightDedupe.tryClaimN 5 (2 + 1) (InFlightDedupe.init 512) =
          some (true :: List.replicate 2 false, s₁) ∧
        ∃ s₂, s₁.release 5 = some s₂ ∧ ∃ s₃, s₂.try_claim 5 = some (true, s₃)) :=
  ⟨by decide, by decide, by decide,
    in_flight_exactly_first_claim_wins (InFlightDedupe.init 512) 5 2
      (by decide) (by decide) (by decide)⟩

/-- C9: `try_claim` and `release` are defined (return a value rather than
raising `IndexError`) exactly for market ids 0..511: with the 8-slot bitmask
of the default construction, any `market_id ≥ 512` indexes the slot list out
of range, so the at-most-one-in-flight guarantee does not extend to such ids
(the Rust variant likewise applies the claim check only when
`market_id < 512`). -/
theorem dedupe_defined_iff_market_lt_512 (s : InFlightDedupe) (m : ℕ)
    (hlen : s.bitmask.length = 8) :
    ((s.try_claim m).isSome = true ↔ m < 512) ∧
      ((s.release m).isSome = true ↔ m < 512) := by
  constructor
  · unfold InFlightDedupe.try_claim
    cases hg : s.bitmask.get? (m / 64) with
    | none =>
        rw [List.get?_eq_none, hlen] at hg
        simp only [Option.isSome_none, Bool.false_eq_true, false_iff]
        omega
    | some b =>
        obtain ⟨hlt, -⟩ := List.get?_eq_some.mp hg
        rw [hlen] at hlt
        have hm : m < 512 := by omega
        simp only [hg]
        split <;> simp [hm]
  · unfold InFlightDedupe.release
    cases hg : s.bitmask.get? (m / 64) with
    | none =>
        rw [List.get?_eq_none, hlen] at hg
        simp only [Option.isSome_none, Bool.false_eq_true, false_iff]
        omega
    | some b =>
        obtain ⟨hlt, -⟩ := List.get?_eq_some.mp hg
        rw [hlen] at hlt
        have hm : m < 512 := by omega
        simp only [hg]
        simp [hm]

/-- Witness for C9 on a fresh deduper: market 511 is claimable, market 512 is
out of range. -/
theorem dedupe_defined_iff_market_lt_512_witness :
    (InFlightDedupe.init 512).bitmask.length = 8 ∧
      ((((InFlightDedupe.init 512).try_claim 600).isSome = true ↔ 600 < 512) ∧
        ((((InFlightDedupe.init 512).release 600).isSome = true) ↔ 600 < 512)) :=
  ⟨by decide, dedupe_defined_iff_market_lt_512 (InFlightDedupe.init 512) 600 (by decide)⟩

/-! ## Circuit breaker

From the analysis document, "Key Code We Should Port / 1. Circuit Breaker
Logic":

    class CircuitBreaker:
        def __init__(self):
            self.max_position_per_market = 50000  # contracts
            self.max_total_position = 100000       # contracts
            self.max_daily_loss = 50.0            # dollars
            self.max_consecutive_errors = 5
            self.cooldown_secs = 60
            self.halted = False
            self.daily_pnl_cents = 0
            self.positions = {}  # {market_id: MarketPosition}
            self.consecutive_errors = 0

        async def can_execute(self, market_id, contracts) -> bool:
            if self.halted:
                return False
            if self.positions.get(market_id, 0) + contracts > self.max_position_per_market:
                return False
            if sum(self.positions.values()) + contracts > self.max_total_position:
                return False
            if self.daily_pnl_cents < -self.max_daily_loss * 100:
                self.trip("Max daily loss exceeded")
                return False
            return True

The Python float `max_daily_loss = 50.0` dollars is exactly representable and
only ever multiplied by 100, so it is embedded as the integer number of
dollars; the daily-loss comparison `daily_pnl_cents < -max_daily_loss * 100`
is then exact integer arithmetic. The `positions` dict becomes an association
list. `can_execute` mutates `self` (via `trip`), so it is embedded as
returning the pair of its boolean result and the post-state. -/

structure CircuitBreaker where
  max_position_per_market : ℤ := 50000
  max_total_position : ℤ := 100000
  max_daily_loss : ℤ := 50
  max_consecutive_errors : ℕ := 5
  cooldown_secs : ℕ := 60
  halted : Bool := false
  daily_pnl_cents : ℤ := 0
  positions : List (ℕ × ℤ) := []
  consecutive_errors : ℕ := 0
  deriving Repr, DecidableEq

namespace CircuitBreaker

/-- Python `self.positions.get(market_id, 0)`. -/
def getPos (cb : CircuitBreaker) (market_id : ℕ) : ℤ :=
  match cb.positions.lookup market_id with
  | some v => v
  | none => 0

/-- Python `sum(self.positions.values())`. -/
def totalPos (cb : CircuitBreaker) : ℤ :=
  (cb.positions.map Prod.snd).sum

/-- Modelled from the spec: `trip` is called by `can_execute` but its body is
absent from src; per the Circuit Breaker state machine of the spec (Armed → on
tripCondition → Halted(reason, until)), tripping records the reason and leaves
the breaker Halted.  We model the state change that matters to `canExecute`:
the breaker becomes halted. -/
def trip (cb : CircuitBreaker) (_reason : String) : CircuitBreaker :=
  { cb with halted := true }

/-- `CircuitBreaker.can_execute` from the source, returning the boolean
result together with the post-state. -/
def can_execute (cb : CircuitBreaker) (market_id : ℕ) (contracts : ℤ) :
    Bool × CircuitBreaker :=
  if cb.halted then (false, cb)
  else if cb.getPos market_id + contracts > cb.max_position_per_market then (false, cb)
  else if cb.totalPos + contracts > cb.max_total_position then (false, cb)
  else if cb.daily_pnl_cents < -cb.max_daily_loss * 100 then
    (false, cb.trip "Max daily loss exceeded")
  else (true, cb)

end CircuitBreaker

/-- C4: once the running daily realized P&L in cents is strictly below the
configured floor `-max_daily_loss * 100`, `can_execute` never returns true for
any market id or contract count; the P&L is unchanged by the call (so the
condition persists), and the call that reaches the daily-loss check (halted
flag clear, both position caps respected) transitions the breaker to Halted. -/
theorem daily_loss_floor_halts (cb : CircuitBreaker) (m : ℕ) (c : ℤ)
    (h : cb.daily_pnl_cents < -cb.max_daily_loss * 100) :
    (cb.can_execute m c).1 = false ∧
      (cb.can_execute m c).2.daily_pnl_cents = cb.daily_pnl_cents ∧
      (cb.halted = false → cb.getPos m + c ≤ cb.max_position_per_market →
        cb.totalPos + c ≤ cb.max_total_position → (cb.can_execute m c).2.halted = true) := by
  unfold CircuitBreaker.can_execute
  by_cases h1 : cb.halted
  · simp [h1]
  · by_cases h2 : cb.getPos m + c > cb.max_position_per_market
    · simp [h1, h2]
    · by_cases h3 : cb.totalPos + c > cb.max_total_position
      · simp [h1, h2, h3]
      · have h' : cb.daily_pnl_cents < -(cb.max_daily_loss * 100) := by
          rw [← neg_mul]; exact h
        simp [h1, h2, h3, h', CircuitBreaker.trip]

/-- Witness for C4: fills summing to −5001¢ against the default −5000¢ floor
block execution and halt the breaker. -/
theorem daily_loss_floor_halts_witness :
    ({ daily_pnl_cents := -5001 } : CircuitBreaker).daily_pnl_cents <
        -({ daily_pnl_cents := -5001 } : CircuitBreaker).max_daily_loss * 100 ∧
      (({ daily_pnl_cents := -5001 } : CircuitBreaker).can_execute 0 1).1 = false ∧
        (({ daily_pnl_cents := -5001 } : CircuitBreaker).can_execute 0 1).2.daily_pnl_cents =
          ({ daily_pnl_cents := -5001 } : CircuitBreaker).daily_pnl_cents ∧
        (({ daily_pnl_cents := -5001 } : CircuitBreaker).halted = false →
          ({ daily_pnl_cents := -5001 } : CircuitBreaker).getPos 0 + 1 ≤
            ({ daily_pnl_cents := -5001 } : CircuitBreaker).max_position_per_market →
          ({ daily_pnl_cents := -5001 } : CircuitBreaker).totalPos + 1 ≤
            ({ daily_pnl_cents := -5001 } : CircuitBreaker).max_total_position →
          (({ daily_pnl_cents := -5001 } : CircuitBreaker).can_execute 0 1).2.halted = true) :=
  ⟨by decide, daily_loss_floor_halts { daily_pnl_cents := -5001 } 0 1 (by decide)⟩

/-- C5: whenever the Circuit Breaker is Halted, `can_execute` returns false
for every market id and every contract count, regardless of the candidate
opportunity. -/
theorem halted_blocks_all (cb : CircuitBreaker) (m : ℕ) (c : ℤ)
    (h : cb.halted = true) :
    (cb.can_execute m c).1 = false := by
  unfold CircuitBreaker.can_execute
  simp [h]

/-- Witness for C5: a halted breaker rejects a concrete candidate. -/
theorem halted_blocks_all_witness :
    ({ halted := true } : CircuitBreaker).halted = true ∧
      (({ halted := true } : CircuitBreaker).can_execute 7 3).1 = false :=
  ⟨by decide, halted_blocks_all { halted := true } 7 3 (by decide)⟩

/-- C6 failing input: a breaker whose `consecutive_errors` counter has reached
`max_consecutive_errors` (5 = 5) yet is not halted.  The source's
`can_execute` checks the halted flag, both position caps and the daily-loss
floor, but never consults the consecutive-error counter, so it still permits
execution and does not trip — contradicting both the spec's trip-condition
list and the source's own configuration comment "Halt on 5 consecutive
errors". -/
theorem consecutive_errors_never_checked :
    ({ consecutive_errors := 5 } : CircuitBreaker).max_consecutive_errors ≤
        ({ consecutive_errors := 5 } : CircuitBreaker).consecutive_errors ∧
      (({ consecutive_errors := 5 } : CircuitBreaker).can_execute 0 1).1 = true ∧
      (({ consecutive_errors := 5 } : CircuitBreaker).can_execute 0 1).2.halted = false := by
  refine ⟨by decide, ?_, ?_⟩ <;> decide

/-! ## Partial-fill reconciliation and the Ledger

From the analysis document, "Risk Mitigation / 2. Partial Fill Risk":

    let matched = yes_filled.min(no_filled);
    let success = matched > 0;
    let actual_profit = matched * 100 - (yes_cost + no_cost);
-/

/-- Partial-fill reconciliation arithmetic from the source. -/
def reconcile_fills (yes_filled no_filled : ℕ) (yes_cost no_cost : ℤ) : ℕ × Bool × ℤ :=
  let matched := min yes_filled no_filled
  (matched, decide (matched > 0), (matched : ℤ) * 100 - (yes_cost + no_cost))

inductive Side
  | yes
  | no
  deriving Repr, DecidableEq

/-- Modelled from the spec: a confirmed fill as recorded by the Position &
P&L Ledger, which is absent from src (the spec's `recordFill(marketId, venue,
side, price, size)`). -/
structure Fill where
  marketId : ℕ
  venue : ℕ
  side : Side
  price : ℕ
  size : ℕ
  deriving Repr, DecidableEq

/-- Modelled from the spec: the Position & P&L Ledger, absent from src.  Per
the spec it is the authoritative record of fills; P&L and positions are
computed strictly from confirmed fills, never from in-flight or assumed
executions. -/
structure Ledger where
  fills : List Fill := []
  deriving Repr, DecidableEq

/-- Modelled from the spec: `recordFill(marketId, venue, side, price, size)`
appends a confirmed fill. -/
def Ledger.recordFill (l : Ledger) (marketId venue : ℕ) (side : Side)
    (price size : ℕ) : Ledger :=
  { fills := l.fills ++ [⟨marketId, venue, side, price, size⟩] }

/-- A position, as the spec defines it: the contract count accumulated from
confirmed fills for one (market, venue, side). -/
def Ledger.position (l : Ledger) (marketId venue : ℕ) (side : Side) : ℕ :=
  ((l.fills.filter fun f =>
      f.marketId == marketId && f.venue == venue && f.side == side).map Fill.size).sum

/-- Modelled from the spec: after execution concludes, each leg is recorded
with its actual filled size; a leg that did not fill produces no fill record
at all. -/
def recordExecution (l : Ledger) (marketId venueYes venueNo yes_price no_price
    yes_filled no_filled : ℕ) : Ledger :=
  let l1 := if 0 < yes_filled then
      l.recordFill marketId venueYes Side.yes yes_price yes_filled
    else l
  if 0 < no_filled then l1.recordFill marketId venueNo Side.no no_price no_filled else l1

/-- C7: reconciliation computes `matched = min(yes_filled, no_filled)` and
`actual_profit = matched * 100 - (yes_cost + no_cost)`; and on a partial fill
in which the YES leg fills `s > 0` contracts and the NO leg fills nothing, the
Ledger records a position only for the filled leg's actual size — the
unfilled leg's position is unchanged (no phantom position). -/
theorem partial_fill_no_phantom_position (yf nf : ℕ) (yc nc : ℤ) (s : ℕ)
    (l : Ledger) (m vA vB yp np : ℕ) (hs : 0 < s) :
    (reconcile_fills yf nf yc nc).1 = min yf nf ∧
      (reconcile_fills yf nf yc nc).2.2 = (min yf nf : ℤ) * 100 - (yc + nc) ∧
      (recordExecution l m vA vB yp np s 0).position m vA Side.yes =
        l.position m vA Side.yes + s ∧
      (recordExecution l m vA vB yp np s 0).position m vB Side.no =
        l.position m vB Side.no := by
  refine ⟨rfl, by simp [reconcile_fills, Nat.cast_min], ?_, ?_⟩
  · simp [recordExecution, hs, Ledger.recordFill, Ledger.position, List.filter_append,
      beq_iff_eq]
  · simp [recordExecution, hs, Ledger.recordFill, Ledger.position, List.filter_append,
      beq_iff_eq]

/-- Witness for C7: the spec's partial-fill scenario, leg A fills 80 contracts
at price 40 (cost 3200¢), leg B times out unfilled. -/
theorem partial_fill_no_phantom_position_witness :
    0 < 80 ∧
      ((reconcile_fills 80 0 3200 0).1 = min 80 0 ∧
        (reconcile_fills 80 0 3200 0).2.2 = (min 80 0 : ℤ) * 100 - (3200 + 0) ∧
        (recordExecution ⟨[]⟩ 1 0 1 40 50 80 0).position 1 0 Side.yes =
          Ledger.position ⟨[]⟩ 1 0 Side.yes + 80 ∧
        (recordExecution ⟨[]⟩ 1 0 1 40 50 80 0).position 1 1 Side.no =
          Ledger.position ⟨[]⟩ 1 1 Side.no) :=
  ⟨by decide, partial_fill_no_phantom_position 80 0 3200 0 80 ⟨[]⟩ 1 0 1 40 50 (by decide)⟩

/-! ## Orderbook state store

Modelled from the spec: the Orderbook State Store is specified (contract:
`update(venue, marketId, snapshot)` accepted only if
`snapshot.version > current.version`; stale or equal versions silently
discarded and counted as a metric, never an error) but no implementation of
it is present in src — only the design documents describing the Rust bot's
atomic packed representation.  The association list keeps the newest entry
first; `current` reads the first binding of a key. -/

/-- Modelled from the spec: an `OrderbookSnapshot` — best YES/NO ask, sizes,
and a monotonic version number. -/
structure Snapshot where
  yes_ask : ℕ
  no_ask : ℕ
  yes_size : ℕ
  no_size : ℕ
  version : ℕ
  deriving Repr, DecidableEq

/-- Modelled from the spec: the Orderbook State Store — per-(venue, market)
snapshots plus the stale-update metric counter. -/
structure OrderbookStore where
  books : List ((ℕ × ℕ) × Snapshot) := []
  stale_dropped : ℕ := 0
  deriving Repr, DecidableEq

/-- The current snapshot for a (venue, market), if any. -/
def OrderbookStore.current (st : OrderbookStore) (venue marketId : ℕ) : Option Snapshot :=
  st.books.lookup (venue, marketId)

/-- Modelled from the spec: `update(venue, marketId, snapshot)` — accepted
only when the incoming version is strictly greater than the current one;
stale or equal versions are silently discarded and counted as a metric,
never treated as an error (the function is total). -/
def OrderbookStore.update (st : OrderbookStore) (venue marketId : ℕ)
    (snap : Snapshot) : OrderbookStore :=
  match st.current venue marketId with
  | none => { st with books := ((venue, marketId), snap) :: st.books }
  | some cur =>
      if cur.version < snap.version then
        { st with books := ((venue, marketId), snap) :: st.books }
      else
        { st with stale_dropped := st.stale_dropped + 1 }

/-- After any update, the stored version at the key is at least the update's
version. -/
lemma current_after_update (st : OrderbookStore) (venue marketId : ℕ) (u : Snapshot) :
    ∃ v, (st.update venue marketId u).current venue marketId = some v ∧
      u.version ≤ v.version := by
  unfold OrderbookStore.update
  cases hc : st.current venue marketId with
  | none =>
      simp only [hc]
      refine ⟨u, ?_, le_refl _⟩
      unfold OrderbookStore.current
      simp [List.lookup]
  | some cur =>
      simp only [hc]
      by_cases hv : cur.version < u.version
      · rw [if_pos hv]
        refine ⟨u, ?_, le_refl _⟩
        unfold OrderbookStore.current
        simp [List.lookup]
      · rw [if_neg hv]
        exact ⟨cur, hc, by omega⟩

/-- A stale-or-equal update is discarded: the books are untouched and only
the metric counter advances. -/
lemma update_stale (st : OrderbookStore) (venue marketId : ℕ) (u v : Snapshot)
    (hc : st.current venue marketId = some v) (hle : u.version ≤ v.version) :
    st.update venue marketId u = { st with stale_dropped := st.stale_dropped + 1 } := by
  unfold OrderbookStore.update
  simp only [hc]
  exact if_neg (by omega)

/-- C8: the store is idempotent to staleness: for updates u1 then u2 on the
same (venue, market) with `u2.version ≤ u1.version`, applying u2 after u1
leaves the book state exactly as after u1; the stale update is discarded
silently — no error, only the stale-update metric counter is incremented.
Acceptance requires a strictly greater version, so an equal version is
likewise discarded. -/
theorem store_idempotent_to_staleness (st : OrderbookStore) (venue marketId : ℕ)
    (u1 u2 : Snapshot) (h : u2.version ≤ u1.version) :
    ((st.update venue marketId u1).update venue marketId u2).books =
        (st.update venue marketId u1).books ∧
      ((st.update venue marketId u1).update venue marketId u2).stale_dropped =
        (st.update venue marketId u1).stale_dropped + 1 := by
  obtain ⟨v, hv, hvv⟩ := current_after_update st venue marketId u1
  rw [update_stale _ venue marketId u2 v hv (by omega)]
  exact ⟨rfl, rfl⟩

/-- Witness for C8: a fresh store, an update at version 2, then a stale update
at version 1. -/
theorem store_idempotent_to_staleness_witness :
    (1 : ℕ) ≤ 2 ∧
      ((((⟨[], 0⟩ : OrderbookStore).update 0 1 ⟨45, 55, 100, 80, 2⟩).update 0 1
            ⟨44, 56, 90, 70, 1⟩).books =
          ((⟨[], 0⟩ : OrderbookStore).update 0 1 ⟨45, 55, 100, 80, 2⟩).books ∧
        ((((⟨[], 0⟩ : OrderbookStore).update 0 1 ⟨45, 55, 100, 80, 2⟩).update 0 1
            ⟨44, 56, 90, 70, 1⟩).stale_dropped =
          ((⟨[], 0⟩ : OrderbookStore).update 0 1 ⟨45, 55, 100, 80, 2⟩).stale_dropped + 1)) :=
  ⟨by decide,
    store_idempotent_to_staleness ⟨[], 0⟩ 0 1 ⟨45, 55, 100, 80, 2⟩ ⟨44, 56, 90, 70, 1⟩
      (by decide)⟩

/-! ## Opportunity detection

From the strategy research document, "1. Single-Condition Arbitrage":

    def detect_single_condition_arbitrage(yes_price, no_price, liquidity):
        sum_price = yes_price + no_price
        # Long arbitrage: Buy both if sum < $1
        if sum_price < 1.00 - min_profit:
            profit_per_dollar = 1.00 - sum_price
            return {
                'type': 'buy_both',
                'position_size': min(liquidity, max_capital),
                'expected_profit': profit_per_dollar * position_size
            }
        # Short arbitrage: Sell both if sum > $1
        elif sum_price > 1.00 + min_profit:
            return {'type': 'sell_both', ...}

Prices are in dollars; they are embedded as exact rationals `ℚ`.
`min_profit` and `max_capital` are module-level configuration globals not
shown in the snippet and are passed as parameters here; the `sell_both`
branch's dict fields are elided in the source ("..."), so the `sell_both`
constructor carries none.  And from the analysis document, "Risk Mitigation /
3. Oracle Manipulation Risk":

    MIN_ARB_SPREAD = 15  # cents
    if profit_cents < MIN_ARB_SPREAD:
        return None  # Skip - insufficient buffer
-/

inductive ArbSignal
  | buy_both (position_size expected_profit : ℚ)
  | sell_both
  deriving Repr, DecidableEq

/-- `detect_single_condition_arbitrage` from the source. -/
def detect_single_condition_arbitrage (min_profit max_capital yes_price no_price
    liquidity : ℚ) : Option ArbSignal :=
  let sum_price := yes_price + no_price
  if sum_price < 1 - min_profit then
    let profit_per_dollar := 1 - sum_price
    let position_size := min liquidity max_capital
    some (ArbSignal.buy_both position_size (profit_per_dollar * position_size))
  else if sum_price > 1 + min_profit then
    some ArbSignal.sell_both
  else
    none

/-- `MIN_ARB_SPREAD` from the source, in cents. -/
def MIN_ARB_SPREAD : ℤ := 15

/-- The source's cross-platform spread guard: skip (return None) when the
profit in cents is below `MIN_ARB_SPREAD`. -/
def cross_platform_spread_guard (profit_cents : ℤ) : Option ℤ :=
  if profit_cents < MIN_ARB_SPREAD then none else some profit_cents

/-- The Opportunity Detector emission condition as the spec words it (for
comparison with the source definitions above): an opportunity exists when
`netProfit = 100 − priceA − priceB − fee(venueA, priceA) − fee(venueB, priceB)`
is at least the configured threshold and `matchedSize = min(sizeA, sizeB) > 0`;
prices are in integer cents, fees come from the venue fee model. -/
def specOpportunityExists (feeA feeB : ℕ → ℕ) (priceA priceB sizeA sizeB : ℕ)
    (minProfitThreshold : ℤ) : Prop :=
  100 - (priceA : ℤ) - priceB - feeA priceA - feeB priceB ≥ minProfitThreshold ∧
    0 < min sizeA sizeB

/-- C2 counterexample: at yes = $0.50, no = $0.48 (50¢ and 48¢), liquidity 10
on both legs, configured floor 1¢ (`min_profit = 0.01`): the source detector
emits an opportunity, since 0.98 < 1 − 0.01; but the spec's condition is
false, because with both venue fees subtracted (the Kalshi fee is 2¢ at 50¢
and 2¢ at 48¢) the net profit is 100 − 50 − 48 − 2 − 2 = −2¢ < 1¢.  The
profit figure the code's decision uses does not subtract venue fees. -/
theorem detector_ignores_fees_counterexample :
    (detect_single_condition_arbitrage (1/100) 100 (50/100) (48/100) 10).isSome = true ∧
      ¬ specOpportunityExists kalshi_fee_cents kalshi_fee_cents 50 48 10 10 1 := by
  constructor
  · unfold detect_single_condition_arbitrage
    norm_num
  · unfold specOpportunityExists
    decide

/-- What the detector actually implements, worded spec-style: a buy-both
opportunity exists exactly when the gross (pre-fee) profit `1 − yes − no`
strictly exceeds the configured floor `min_profit`. -/
def grossBuyOpportunityExists (min_profit yes_price no_price : ℚ) : Prop :=
  min_profit < 1 - (yes_price + no_price)

/-- C2 amended: the detector emits a buy-both opportunity — with position
size `min(liquidity, max_capital)` and expected profit
`(1 − yes − no) · min(liquidity, max_capital)`, gross of venue fees and with
no matched-size check — exactly when the gross profit strictly exceeds the
configured floor `min_profit`; separately, the cross-platform spread guard
passes a candidate exactly when its profit in cents reaches the configured
15¢ floor. -/
theorem detector_emits_iff_gross_profit_above_floor (mp mc y n l : ℚ) :
    (detect_single_condition_arbitrage mp mc y n l =
        some (ArbSignal.buy_both (min l mc) ((1 - (y + n)) * min l mc)) ↔
      grossBuyOpportunityExists mp y n) ∧
      (∀ pc : ℤ, (cross_platform_spread_guard pc).isSome = true ↔ MIN_ARB_SPREAD ≤ pc) := by
  constructor
  · unfold detect_single_condition_arbitrage grossBuyOpportunityExists
    simp only []
    split_ifs with h1 h2
    · exact ⟨fun _ => by linarith, fun _ => rfl⟩
    · exact ⟨fun h => by simp at h, fun hcon => absurd (by linarith : y + n < 1 - mp) h1⟩
    · exact ⟨fun h => by simp at h, fun hcon => absurd (by linarith : y + n < 1 - mp) h1⟩
  · intro pc
    unfold cross_platform_spread_guard
    split_ifs with h
    · simp
      omega
    · simp
      omega

end OpenClaw
